import Mathlib

/-
Shallow embedding of `script.js`, the single source file of the
AI-Voice-Detector front-end, together with proofs about its behaviour.

Modelling conventions:
* JavaScript numbers are modelled as rationals (`Rat`).  Every number the
  script manipulates (the accumulator `count`, stepped by `0.5`, and the
  mock score `97.8`) is exactly representable, and all comparisons the
  script performs agree with the rational ones, so `Rat` is a faithful
  model here.  `count` is always an integer multiple of `0.5`, so
  `toFixed(1)` renders it exactly and the displayed text is identified
  with the displayed numeric value.
* JavaScript strings that are split character by character are modelled
  as `List Char`; strings used only whole are Lean `String`s.
* The event-driven control flow (DOM events, `setTimeout`, `setInterval`,
  `FileReader.onloadend`, the waveform renderer's internal decode) is
  modelled as a state machine: `UIState` carries the observable DOM
  state plus the pending asynchronous completions, `UIEvent` is one
  event-loop dispatch, and `step`/`run` execute events in sequence.
  A one-shot timer callback or reader completion can fire at most once,
  which the state records by consuming the corresponding pending entry.
-/

/-! ### JavaScript `String.prototype.split` on a one-character separator -/

/-- JavaScript `s.split(sep)` for a one-character separator: splits at every
occurrence of `sep`, keeping empty segments (`"".split(',') = [""]`,
`",".split(',') = ["", ""]`). -/
def splitChars (sep : Char) : List Char → List (List Char)
  | [] => [[]]
  | c :: cs =>
    let r := splitChars sep cs
    if c = sep then [] :: r
    else
      match r with
      | [] => [[c]]
      | h :: t => (c :: h) :: t

/-- Line 43: `reader.result.split(',')[1]`.  `none` models JavaScript
`undefined` (the index being out of range). -/
def dataURLPayload (result : List Char) : Option (List Char) :=
  (splitChars ',' result)[1]?

theorem splitChars_of_no_sep {sep : Char} {l : List Char} (h : sep ∉ l) :
    splitChars sep l = [l] := by
  induction l with
  | nil => rfl
  | cons c cs ih =>
    have hc : ¬ c = sep := fun hce => h (hce ▸ List.mem_cons_self c cs)
    have hcs : sep ∉ cs := fun hm => h (List.mem_cons_of_mem c hm)
    simp [splitChars, hc, ih hcs]

theorem splitChars_append_sep {sep : Char} {h : List Char} (rest : List Char)
    (hh : sep ∉ h) :
    splitChars sep (h ++ sep :: rest) = h :: splitChars sep rest := by
  induction h with
  | nil => simp [splitChars]
  | cons c cs ih =>
    have hc : ¬ c = sep := fun hce => hh (hce ▸ List.mem_cons_self c cs)
    have hcs : sep ∉ cs := fun hm => hh (List.mem_cons_of_mem c hm)
    simp [splitChars, hc, ih hcs]

/-! ### The mock analysis response (lines 85-90) -/

/-- Shape of the object the mock API produces (`displayResults`, line 85). -/
structure MockResponse where
  lang : String
  score : Rat
  isAI : Bool
  details : String
deriving DecidableEq

/-- The fixed in-memory object of `displayResults` (lines 85-90). -/
def mockResponse : MockResponse :=
  { lang := "Telugu"
  , score := 97.8
  , isAI := true
  , details := "Neural vocoder artifacts detected. Spectral flux distribution is too consistent for human vocal cords. Lack of physiological micro-jitters in the 4kHz range." }

/-- Line 98: `mockResponse.isAI ? "AI-GENERATED VOICE" : "HUMAN VOICE DETECTED"`. -/
def classificationText (isAI : Bool) : String :=
  if isAI then "AI-GENERATED VOICE" else "HUMAN VOICE DETECTED"

/-- Line 99: `mockResponse.isAI ? "#fb7185" : "#34d399"`. -/
def classificationColor (isAI : Bool) : String :=
  if isAI then "#fb7185" else "#34d399"

/-- Line 106: the string handed to `typeWriter`,
`` `> [SYSTEM_REPORT]: ${mockResponse.details}` ``. -/
def systemReportText : String :=
  "> [SYSTEM_REPORT]: " ++ mockResponse.details

/-! ### The score count-up animation (`animateScore`, lines 112-123) -/

/-- The state the `setInterval` callback of `animateScore` closes over:
the accumulator `count`, the element's displayed value (`none` before the
first tick writes it), and whether the interval is still active
(`clearInterval` not yet called). -/
structure ScoreAnim where
  count : Rat
  displayed : Option Rat
  running : Bool
deriving DecidableEq

/-- `let count = 0` (line 113); no tick has written the element yet and the
interval is active. -/
def scoreInit : ScoreAnim := ⟨0, none, true⟩

/-- Line 114: `const speed = 2000 / target`.  Computed by the source and
never referenced again (the interval length is the literal `10`). -/
def speed (target : Rat) : Rat := 2000 / target

/-- The second argument of `setInterval` (line 122): the literal `10`,
independent of the target (and of `speed`). -/
def scoreIntervalMs (_target : Rat) : Nat := 10

/-- One firing of the `setInterval` callback (lines 115-121): if the
interval is still active, add `0.5` to the accumulator, display it, and if
the accumulator has reached the target, overwrite the display with the
target exactly and clear the interval.  `displayed` is the element text at
the end of the tick. -/
def scoreTick (target : Rat) (a : ScoreAnim) : ScoreAnim :=
  if a.running then
    let c := a.count + 0.5
    if c ≥ target then ⟨c, some target, false⟩
    else ⟨c, some c, true⟩
  else a

/-- The animation state after `n` ticks of the interval. -/
def scoreRun (target : Rat) (n : Nat) : ScoreAnim :=
  (scoreTick target)^[n] scoreInit

/-- Number of ticks until the interval is cleared: the first `k ≥ 1` with
`k * 0.5 ≥ target`. -/
def scoreTicksTotal (target : Rat) : Nat :=
  max 1 (Int.toNat ⌈2 * target⌉)

/-- The numeric value shown in the element after `k` ticks (`0` before the
first tick has written anything). -/
def dispAt (target : Rat) (k : Nat) : Rat :=
  ((scoreRun target k).displayed).getD 0

/-- Wall-clock length of the whole animation. -/
def totalDurationMs (target : Rat) : Nat :=
  scoreTicksTotal target * scoreIntervalMs target

/-! ### The typewriter effect (`typeWriter`, lines 126-132) -/

/-- The element text together with the index argument of the pending
`typeWriter` invocation. -/
structure TypeAnim where
  displayed : List Char
  idx : Nat
deriving DecidableEq

/-- One invocation of `typeWriter(element, text, i)` (lines 126-132):
clear the element when `i === 0`, then, if `i < text.length`, append
`text.charAt(i)` and schedule the next invocation with `i + 1`. -/
def typeTick (text : List Char) (a : TypeAnim) : TypeAnim :=
  let disp := if a.idx = 0 then [] else a.displayed
  if a.idx < text.length then ⟨disp ++ [text.getD a.idx ' '], a.idx + 1⟩
  else ⟨disp, a.idx⟩

/-- State after `n` invocations of `typeWriter` on an element whose prior
content is `initialContent` (the initial call has `i = 0`). -/
def typeRun (text initialContent : List Char) (n : Nat) : TypeAnim :=
  (typeTick text)^[n] ⟨initialContent, 0⟩

/-! ### The UI orchestrator state machine -/

/-- A user-selected file: its `name` property and the data URL that
`FileReader.readAsDataURL` will eventually produce for it. -/
structure JSFile where
  name : String
  dataURL : List Char
deriving DecidableEq

/-- Observable DOM state plus pending asynchronous completions.
`scanLines` counts `.scan-line` elements inside `#waveform`;
`pendingAnalysis` holds the delay of the armed `setTimeout` of the analyze
handler, if any; `pendingReads` holds the data-URL results of `FileReader`s
whose `onloadend` has not fired yet; `rendererPending` counts
`wavesurfer.load` calls whose internal decode has not completed;
`scrolls` records `scrollIntoView` calls in order; `uploads` is a history
variable counting completed `handleAudioUpload` calls, used only to state
invariants. -/
structure UIState where
  playbackVisible : Bool
  fileName : Option String
  audioBase64 : Option (List Char)
  rendererPending : Nat
  pendingReads : List (List Char)
  analyzeDisabled : Bool
  analyzeLabel : String
  scanLines : Nat
  pendingAnalysis : Option Nat
  resultsVisible : Bool
  classLabel : Option String
  classColor : Option String
  badge : Option String
  scoreAnimTarget : Option Rat
  explAnimText : Option String
  scrolls : List String
  uploads : Nat
deriving DecidableEq

/-- Line 76 / restored label: `"Verify Authenticity"`. -/
def defaultAnalyzeLabel : String := "Verify Authenticity"

/-- Line 64: the busy label set while analyzing. -/
def analyzingLabel : String := "<span class=\"loader\"></span> Analyzing Audio..."

/-- Line 77: the delay passed to `setTimeout` in the analyze handler. -/
def analysisDelayMs : Nat := 3000

/-- `handleAudioUpload(file)` (lines 31-50): synchronously reveal the
playback surface, set the displayed file name, start the renderer load,
start the `FileReader` (its completion is pending, the slot untouched),
and scroll the playback surface into view. -/
def handleAudioUpload (file : JSFile) (s : UIState) : UIState :=
  { s with
      playbackVisible := true
      fileName := some file.name
      rendererPending := s.rendererPending + 1
      pendingReads := s.pendingReads ++ [file.dataURL]
      scrolls := s.scrolls ++ ["playback-container"]
      uploads := s.uploads + 1 }

/-- `audioInput.onchange` (lines 26-29): `const file = e.target.files[0];
if (file) handleAudioUpload(file);`. -/
def audioInputOnchange (files : List JSFile) (s : UIState) : UIState :=
  match files with
  | [] => s
  | file :: _ => handleAudioUpload file s

/-- The `reader.onloadend` callback (lines 42-45) for the `j`-th pending
read: `window.audioBase64 = reader.result.split(',')[1]`.  The completed
read is no longer pending. -/
def readerOnloadend (j : Nat) (s : UIState) : UIState :=
  if j < s.pendingReads.length then
    { s with
        audioBase64 := dataURLPayload (s.pendingReads.getD j [])
        pendingReads := s.pendingReads.eraseIdx j }
  else s

/-- Completion of the waveform renderer's internal asynchronous decode of
one `wavesurfer.load` call.  It has no effect the orchestrator observes. -/
def wavesurferReady (s : UIState) : UIState :=
  if 0 < s.rendererPending then
    { s with rendererPending := s.rendererPending - 1 }
  else s

/-- `displayResults()` (lines 81-109): reveal the results surface, set the
classification label/color from `mockResponse.isAI`, set the language
badge, start the score count-up at `mockResponse.score`, start the
typewriter on the system-report string, and scroll the results into view. -/
def displayResults (s : UIState) : UIState :=
  { s with
      resultsVisible := true
      classLabel := some (classificationText mockResponse.isAI)
      classColor := some (classificationColor mockResponse.isAI)
      badge := some (mockResponse.lang ++ " Detected")
      scoreAnimTarget := some mockResponse.score
      explAnimText := some systemReportText
      scrolls := s.scrolls ++ ["results-display"] }

/-- `analyzeBtn.onclick` (lines 61-78).  A disabled control emits no click,
so an activation while `analyzeDisabled` is a no-op; otherwise disable the
trigger, set the busy label, insert the scan-line overlay, and arm the
3000ms one-shot timer. -/
def analyzeBtnOnclick (s : UIState) : UIState :=
  if s.analyzeDisabled then s
  else
    { s with
        analyzeDisabled := true
        analyzeLabel := analyzingLabel
        scanLines := s.scanLines + 1
        pendingAnalysis := some analysisDelayMs }

/-- The `setTimeout` callback (lines 72-77): remove the scan line, run
`displayResults`, re-enable the trigger, restore the default label.  The
one-shot timer is consumed; with no timer armed nothing fires. -/
def analysisTimeout (s : UIState) : UIState :=
  match s.pendingAnalysis with
  | none => s
  | some _ =>
    let s1 := displayResults
      { s with scanLines := s.scanLines - 1, pendingAnalysis := none }
    { s1 with analyzeDisabled := false, analyzeLabel := defaultAnalyzeLabel }

/-- One event-loop dispatch. -/
inductive UIEvent where
  | selectFiles (files : List JSFile)
  | clickAnalyze
  | analysisTimerFires
  | readerLoadEnd (j : Nat)
  | rendererReady
deriving DecidableEq

/-- Dispatch one event. -/
def step (s : UIState) : UIEvent → UIState
  | .selectFiles files => audioInputOnchange files s
  | .clickAnalyze => analyzeBtnOnclick s
  | .analysisTimerFires => analysisTimeout s
  | .readerLoadEnd j => readerOnloadend j s
  | .rendererReady => wavesurferReady s

/-- Execute a sequence of events. -/
def run (s : UIState) (es : List UIEvent) : UIState := es.foldl step s

/-- Modelled from the spec: the initial DOM state is fixed by the page's
HTML, which is not part of the script.  Per the spec, the playback and
results surfaces start hidden, the analyze trigger starts enabled with its
default label (its precondition "an audio resource should already be
loaded" is not enforced), and no audio is loaded or pending. -/
def initState : UIState :=
  { playbackVisible := false
  , fileName := none
  , audioBase64 := none
  , rendererPending := 0
  , pendingReads := []
  , analyzeDisabled := false
  , analyzeLabel := defaultAnalyzeLabel
  , scanLines := 0
  , pendingAnalysis := none
  , resultsVisible := false
  , classLabel := none
  , classColor := none
  , badge := none
  , scoreAnimTarget := none
  , explAnimText := none
  , scrolls := []
  , uploads := 0 }

/-- An execution that reaches a displayed result without any upload. -/
def noUploadTrace : List UIEvent :=
  [UIEvent.clickAnalyze, UIEvent.analysisTimerFires]

/-! ### Lemmas about the score count-up -/

theorem scoreRun_zero (S : Rat) : scoreRun S 0 = scoreInit := rfl

theorem scoreRun_succ (S : Rat) (n : Nat) :
    scoreRun S (n + 1) = scoreTick S (scoreRun S n) :=
  Function.iterate_succ_apply' (scoreTick S) n scoreInit

theorem half_lt_of_lt_ceil {S : Rat} {k : Nat} (hk : k < Int.toNat ⌈2 * S⌉) :
    (k : Rat) / 2 < S := by
  have h1 : (k : Int) < ⌈2 * S⌉ := Int.lt_toNat.mp hk
  have h2 : ((k : Int) : Rat) < 2 * S := Int.lt_ceil.mp h1
  push_cast at h2
  linarith


theorem scoreTick_run_lt {S c : Rat} {d : Option Rat} (h : c + 0.5 < S) :
    scoreTick S ⟨c, d, true⟩ = ⟨c + 0.5, some (c + 0.5), true⟩ := by
  simp [scoreTick, h.not_le]

theorem scoreTick_run_ge {S c : Rat} {d : Option Rat} (h : S ≤ c + 0.5) :
    scoreTick S ⟨c, d, true⟩ = ⟨c + 0.5, some S, false⟩ := by
  simp [scoreTick, h]

theorem scoreTick_frozen {S : Rat} {a : ScoreAnim} (h : a.running = false) :
    scoreTick S a = a := by
  simp [scoreTick, h]

theorem scoreRun_running (S : Rat) :
    ∀ k, k < Int.toNat ⌈2 * S⌉ →
      scoreRun S k =
        ⟨(k : Rat) / 2, if k = 0 then none else some ((k : Rat) / 2), true⟩ := by
  intro k
  induction k with
  | zero =>
    intro _
    simp [scoreRun, scoreInit]
  | succ n ih =>
    intro hk
    have hn : n < Int.toNat ⌈2 * S⌉ := Nat.lt_of_succ_lt hk
    have hlt : ((n + 1 : Nat) : Rat) / 2 < S := half_lt_of_lt_ceil hk
    have hstep : (n : Rat) / 2 + 0.5 = ((n + 1 : Nat) : Rat) / 2 := by
      push_cast
      norm_num
      ring
    have hlt' : (n : Rat) / 2 + 0.5 < S := by rw [hstep]; exact hlt
    rw [scoreRun_succ, ih hn, scoreTick_run_lt hlt', hstep]
    simp

theorem scoreRun_stop (S : Rat) :
    scoreRun S (scoreTicksTotal S) =
      ⟨(scoreTicksTotal S : Rat) / 2, some S, false⟩ := by
  rcases Nat.eq_zero_or_pos (Int.toNat ⌈2 * S⌉) with h0 | hpos
  · have hK : scoreTicksTotal S = 1 := by simp [scoreTicksTotal, h0]
    have hceil : ⌈2 * S⌉ ≤ 0 := Int.toNat_eq_zero.mp h0
    have hS : S ≤ 0 := by
      have h1 : 2 * S ≤ ((0 : Int) : Rat) := Int.ceil_le.mp hceil
      push_cast at h1
      linarith
    have hge : S ≤ (0 : Rat) + 0.5 := by norm_num; linarith
    rw [hK]
    have : scoreRun S 1 = scoreTick S scoreInit := scoreRun_succ S 0
    rw [this, scoreInit, scoreTick_run_ge hge]
    norm_num
  · have hK : scoreTicksTotal S = Int.toNat ⌈2 * S⌉ := by
      simp [scoreTicksTotal]
      omega
    have hx : (0 : Int) < ⌈2 * S⌉ := by
      have := Int.lt_toNat.mp (show (0 : Nat) < Int.toNat ⌈2 * S⌉ from hpos)
      exact_mod_cast this
    have hcast : ((Int.toNat ⌈2 * S⌉ : Nat) : Int) = ⌈2 * S⌉ :=
      Int.toNat_of_nonneg hx.le
    have h2S : 2 * S ≤ ((Int.toNat ⌈2 * S⌉ : Nat) : Rat) := by
      have h1 : 2 * S ≤ (⌈2 * S⌉ : Rat) := Int.le_ceil _
      have h2 : ((Int.toNat ⌈2 * S⌉ : Nat) : Rat) = ((⌈2 * S⌉ : Int) : Rat) := by
        exact_mod_cast congrArg (fun z : Int => (z : Rat)) hcast
      linarith
    set C := Int.toNat ⌈2 * S⌉ with hC
    have hprev : C - 1 < C := by omega
    have hrun := scoreRun_running S (C - 1) hprev
    have hcastC : ((C - 1 : Nat) : Rat) = (C : Rat) - 1 := by
      have : (1 : Nat) ≤ C := hpos
      push_cast [this]
      ring
    have hge : S ≤ ((C - 1 : Nat) : Rat) / 2 + 0.5 := by
      rw [hcastC]
      norm_num
      linarith
    have hsucc : C = (C - 1) + 1 := by omega
    rw [hK, hsucc, scoreRun_succ, hrun, scoreTick_run_ge hge]
    rw [← hsucc, hcastC]
    norm_num
    ring

theorem scoreRun_after (S : Rat) :
    ∀ j, scoreRun S (scoreTicksTotal S + j) = scoreRun S (scoreTicksTotal S) := by
  intro j
  induction j with
  | zero => rfl
  | succ n ih =>
    have h1 : scoreTicksTotal S + (n + 1) = (scoreTicksTotal S + n) + 1 := by omega
    rw [h1, scoreRun_succ, ih, scoreTick_frozen]
    rw [scoreRun_stop]

theorem scoreRun_ge (S : Rat) (m : Nat) (hm : scoreTicksTotal S ≤ m) :
    scoreRun S m = scoreRun S (scoreTicksTotal S) := by
  have h1 : m = scoreTicksTotal S + (m - scoreTicksTotal S) := by omega
  rw [h1, scoreRun_after]

theorem scoreTicksTotal_of_pos {S : Rat} (hS : 0 < S) :
    scoreTicksTotal S = Int.toNat ⌈2 * S⌉ := by
  have h1 : (0 : Int) < ⌈2 * S⌉ := Int.ceil_pos.mpr (by linarith)
  simp only [scoreTicksTotal]
  omega

theorem dispAt_le (S : Rat) (hS : 0 < S) (k : Nat) : dispAt S k ≤ S := by
  rcases lt_or_ge k (scoreTicksTotal S) with hk | hk
  · have hk' : k < Int.toNat ⌈2 * S⌉ := scoreTicksTotal_of_pos hS ▸ hk
    rw [dispAt, scoreRun_running S k hk']
    by_cases h0 : k = 0
    · simp [h0]
      linarith
    · simp [h0]
      have := half_lt_of_lt_ceil hk'
      linarith
  · rw [dispAt, scoreRun_ge S k hk, scoreRun_stop]
    simp

theorem dispAt_mono (S : Rat) (hS : 0 < S) {j k : Nat} (h : j ≤ k) :
    dispAt S j ≤ dispAt S k := by
  rcases lt_or_ge k (scoreTicksTotal S) with hk | hk
  · have hK := scoreTicksTotal_of_pos hS
    have hk' : k < Int.toNat ⌈2 * S⌉ := hK ▸ hk
    have hj' : j < Int.toNat ⌈2 * S⌉ := lt_of_le_of_lt (by omega) hk'
    rw [dispAt, dispAt, scoreRun_running S j hj', scoreRun_running S k hk']
    by_cases hj0 : j = 0
    · subst hj0
      by_cases hk0 : k = 0
      · subst hk0
        simp
      · simp [hk0]
        positivity
    · have hk0 : k ≠ 0 := by omega
      simp [hj0, hk0]
      have hcast : (j : Rat) ≤ (k : Rat) := by exact_mod_cast h
      linarith
  · have hfin : dispAt S k = S := by
      rw [dispAt, scoreRun_ge S k hk, scoreRun_stop]
      rfl
    rw [hfin]
    exact dispAt_le S hS j

theorem scoreRun_count_step (S : Rat) (hS : 0 < S) (k : Nat)
    (hk : k < scoreTicksTotal S) :
    (scoreRun S (k + 1)).count = (scoreRun S k).count + 0.5 := by
  have hK := scoreTicksTotal_of_pos hS
  have hk' : k < Int.toNat ⌈2 * S⌉ := hK ▸ hk
  rw [scoreRun_succ, scoreRun_running S k hk']
  by_cases hlt : (k : Rat) / 2 + 0.5 < S
  · rw [scoreTick_run_lt hlt]
  · rw [scoreTick_run_ge (by linarith [not_lt.mp hlt])]

/-! ### Lemmas about the typewriter -/

theorem typeRun_succ (text init : List Char) (n : Nat) :
    typeRun text init (n + 1) = typeTick text (typeRun text init n) :=
  Function.iterate_succ_apply' (typeTick text) n ⟨init, 0⟩

theorem typeRun_formula (text init : List Char) :
    ∀ k, 1 ≤ k → typeRun text init k = ⟨text.take k, min k text.length⟩ := by
  intro k
  induction k with
  | zero => omega
  | succ n ih =>
    intro _
    rcases Nat.eq_zero_or_pos n with h0 | hpos
    · subst h0
      rw [typeRun_succ]
      show typeTick text ⟨init, 0⟩ = _
      cases text with
      | nil => simp [typeTick]
      | cons c cs =>
        simp [typeTick, List.getD]
    · rw [typeRun_succ, ih hpos]
      rcases Nat.eq_zero_or_pos text.length with hL0 | hLpos
      · have htext : text = [] := List.length_eq_zero.mp hL0
        subst htext
        simp [typeTick]
      · have hidx : min n text.length ≠ 0 := by omega
        rcases lt_or_ge n text.length with hlt | hge
        · have hmin : min n text.length = n := by omega
          rw [hmin]
          have hn0 : n ≠ 0 := by omega
          simp only [typeTick, hn0, if_false, hlt, if_true]
          have htake : text.take n ++ [text.getD n ' '] = text.take (n + 1) := by
            rw [List.take_succ, List.getD_eq_getElem text ' ' hlt,
              List.getElem?_eq_getElem hlt]
            rfl
          rw [htake]
          have hminn : n + 1 = min (n + 1) text.length := by omega
          rw [← hminn]
        · have hmin : min n text.length = text.length := by omega
          rw [hmin]
          have hn0 : text.length ≠ 0 := by omega
          simp only [typeTick, hn0, if_false, lt_irrefl, if_false]
          have ht1 : text.take n = text := List.take_of_length_le (by omega)
          have ht2 : text.take (n + 1) = text := List.take_of_length_le (by omega)
          rw [ht1, ht2]
          have : text.length = min (n + 1) text.length := by omega
          rw [← this]

/-! ### Lemmas about the orchestrator -/

theorem run_nil (s : UIState) : run s [] = s := rfl

theorem run_cons (s : UIState) (e : UIEvent) (es : List UIEvent) :
    run s (e :: es) = run (step s e) es := rfl

theorem step_disabled {s : UIState} (e : UIEvent)
    (hd : s.analyzeDisabled = true) (he : e ≠ UIEvent.analysisTimerFires) :
    (step s e).analyzeDisabled = true := by
  cases e with
  | selectFiles files =>
    cases files with
    | nil => exact hd
    | cons f fs => simpa [step, audioInputOnchange, handleAudioUpload] using hd
  | clickAnalyze => simp [step, analyzeBtnOnclick, hd]
  | analysisTimerFires => exact absurd rfl he
  | readerLoadEnd j =>
    by_cases hj : j < s.pendingReads.length
    · simpa [step, readerOnloadend, hj] using hd
    · simpa [step, readerOnloadend, hj] using hd
  | rendererReady =>
    by_cases hr : 0 < s.rendererPending
    · simpa [step, wavesurferReady, hr] using hd
    · simpa [step, wavesurferReady, hr] using hd

theorem run_disabled {s : UIState} {es : List UIEvent}
    (hd : s.analyzeDisabled = true)
    (hes : ∀ e ∈ es, e ≠ UIEvent.analysisTimerFires) :
    (run s es).analyzeDisabled = true := by
  induction es generalizing s with
  | nil => simpa [run_nil] using hd
  | cons e es ih =>
    rw [run_cons]
    exact ih (step_disabled e hd (hes e (List.mem_cons_self e es)))
      (fun e' he' => hes e' (List.mem_cons_of_mem e he'))

theorem getD_concat_length {α : Type} (l : List α) (x : α) (d : α) :
    (l ++ [x]).getD l.length d = x := by
  rw [List.getD_append_right _ _ _ _ (le_refl _)]
  simp

theorem eraseIdx_concat_length {α : Type} (l : List α) (x : α) :
    (l ++ [x]).eraseIdx l.length = l := by
  induction l with
  | nil => rfl
  | cons a as ih => simp [List.eraseIdx, ih]

/-! ### Claims -/

/-- C6: The classification label text and color are a pure function of the
binary classification flag (line 98-99): `true` (synthetic) maps to exactly
the pair ("AI-GENERATED VOICE", "#fb7185"), `false` (human) maps to exactly
("HUMAN VOICE DETECTED", "#34d399"), the two pairs are distinct and fixed,
and no third label/color combination is producible. -/
theorem classification_pure :
    classificationText true = "AI-GENERATED VOICE" ∧
    classificationColor true = "#fb7185" ∧
    classificationText false = "HUMAN VOICE DETECTED" ∧
    classificationColor false = "#34d399" ∧
    (∀ b : Bool,
      (classificationText b, classificationColor b) =
          ("AI-GENERATED VOICE", "#fb7185") ∨
      (classificationText b, classificationColor b) =
          ("HUMAN VOICE DETECTED", "#34d399")) ∧
    (("AI-GENERATED VOICE", "#fb7185") : String × String) ≠
      ("HUMAN VOICE DETECTED", "#34d399") := by
  refine ⟨rfl, rfl, rfl, rfl, ?_, by decide⟩
  intro b
  cases b
  · right; rfl
  · left; rfl

/-- C7: `audioInput.onchange` (lines 26-29) uses only the first selected
file: selecting `f :: rest` is the same transition as selecting `[f]`
alone; after it, the single displayed "current" audio name equals `f.name`,
the name of the most recently selected file, regardless of any prior
uploads recorded in `s`; selecting nothing is a no-op. -/
theorem upload_uses_first_file (s : UIState) (f : JSFile) (rest : List JSFile) :
    step s (UIEvent.selectFiles (f :: rest)) = step s (UIEvent.selectFiles [f]) ∧
    (step s (UIEvent.selectFiles (f :: rest))).fileName = some f.name ∧
    step s (UIEvent.selectFiles []) = s :=
  ⟨rfl, rfl, rfl⟩

/-- C4: `typeWriter` (lines 126-132) clears the element on its initial
invocation (regardless of prior content), appends exactly one character per
tick, after `L` ticks shows the full string, and after tick `k < L` shows
the strict prefix of length `k` (the remainder is nonempty). -/
theorem typeWriter_correct (text init : List Char) :
    ((typeRun text init 1).displayed = text.take 1) ∧
    (∀ k, 1 ≤ k → (typeRun text init k).displayed = text.take k) ∧
    (1 ≤ text.length → (typeRun text init text.length).displayed = text) ∧
    (∀ k, 1 ≤ k → k < text.length →
      ((typeRun text init k).displayed.length = k ∧
       (typeRun text init k).displayed ++ text.drop k = text ∧
       text.drop k ≠ [])) ∧
    (∀ k, 1 ≤ k → k < text.length →
      (typeRun text init (k + 1)).displayed =
        (typeRun text init k).displayed ++ [text.getD k ' ']) := by
  have hform := typeRun_formula text init
  refine ⟨?_, ?_, ?_, ?_, ?_⟩
  · rw [hform 1 (le_refl 1)]
  · intro k hk
    rw [hform k hk]
  · intro hL
    rw [hform text.length hL, List.take_length]
  · intro k hk hkL
    rw [hform k hk]
    refine ⟨?_, ?_, ?_⟩
    · simp
      omega
    · exact List.take_append_drop k text
    · intro hnil
      have := List.drop_eq_nil_iff.mp hnil
      omega
  · intro k hk hkL
    rw [hform k hk, hform (k + 1) (by omega)]
    rw [List.take_succ, List.getD_eq_getElem text ' ' hkL,
      List.getElem?_eq_getElem hkL]
    rfl

/-- Witness for C4 at the concrete text "ab" over prior content "z". -/
theorem typeWriter_correct_witness :
    (1 ≤ ("ab".toList).length) ∧
    (typeRun "ab".toList "z".toList ("ab".toList).length).displayed = "ab".toList ∧
    (1 ≤ 1 ∧ 1 < ("ab".toList).length) ∧
    (typeRun "ab".toList "z".toList 1).displayed.length = 1 :=
  ⟨by decide, (typeWriter_correct "ab".toList "z".toList).2.2.1 (by decide),
   ⟨le_refl 1, by decide⟩,
   ((typeWriter_correct "ab".toList "z".toList).2.2.2.1 1 (le_refl 1) (by decide)).1⟩

theorem le_scoreTicksTotal_half (S : Rat) (hS : 0 < S) :
    S ≤ (scoreTicksTotal S : Rat) / 2 := by
  have hx : (0 : Int) < ⌈2 * S⌉ := Int.ceil_pos.mpr (by linarith)
  have hcast : ((Int.toNat ⌈2 * S⌉ : Nat) : Int) = ⌈2 * S⌉ :=
    Int.toNat_of_nonneg hx.le
  have h1 : 2 * S ≤ (⌈2 * S⌉ : Rat) := Int.le_ceil _
  have h2 : ((Int.toNat ⌈2 * S⌉ : Nat) : Rat) = ((⌈2 * S⌉ : Int) : Rat) := by
    exact_mod_cast congrArg (fun z : Int => (z : Rat)) hcast
  rw [scoreTicksTotal_of_pos hS]
  linarith

/-- C3: for every target score `S > 0`, the count-up (`animateScore`,
lines 112-123) fires on a fixed 10ms interval, increments the accumulator
by the fixed step `0.5` each tick, displays the accumulator at the end of
every tick while it is still below `S`, and on the first tick at which the
accumulator reaches or exceeds `S` snaps the display to exactly `S` and
stops (all later ticks change nothing).  The end-of-tick displayed value
never exceeds `S` and is monotonically non-decreasing. -/
theorem animateScore_correct (S : Rat) (hS : 0 < S) :
    scoreIntervalMs S = 10 ∧
    (∀ k, k < scoreTicksTotal S →
      (scoreRun S (k + 1)).count = (scoreRun S k).count + 0.5) ∧
    (∀ k, 1 ≤ k → k < scoreTicksTotal S →
      (scoreRun S k).displayed = some ((scoreRun S k).count) ∧
      (scoreRun S k).count < S) ∧
    S ≤ (scoreRun S (scoreTicksTotal S)).count ∧
    (scoreRun S (scoreTicksTotal S)).displayed = some S ∧
    (scoreRun S (scoreTicksTotal S)).running = false ∧
    (∀ m, scoreTicksTotal S ≤ m → scoreRun S m = scoreRun S (scoreTicksTotal S)) ∧
    (∀ k, dispAt S k ≤ S) ∧
    (∀ j k, j ≤ k → dispAt S j ≤ dispAt S k) := by
  have hK := scoreTicksTotal_of_pos hS
  refine ⟨rfl, scoreRun_count_step S hS, ?_, ?_, ?_, ?_, scoreRun_ge S,
    dispAt_le S hS, fun j k h => dispAt_mono S hS h⟩
  · intro k hk1 hkK
    have hk' : k < Int.toNat ⌈2 * S⌉ := hK ▸ hkK
    rw [scoreRun_running S k hk']
    have hk0 : k ≠ 0 := by omega
    exact ⟨by simp [hk0], half_lt_of_lt_ceil hk'⟩
  · rw [scoreRun_stop]
    exact le_scoreTicksTotal_half S hS
  · rw [scoreRun_stop]
  · rw [scoreRun_stop]

/-- Witness for C3 at the concrete target `S = 1` (two ticks). -/
theorem animateScore_correct_witness :
    (0 : Rat) < 1 ∧
    (scoreRun 1 (scoreTicksTotal 1)).displayed = some 1 ∧
    (scoreRun 1 (scoreTicksTotal 1)).running = false ∧
    dispAt 1 1 ≤ 1 :=
  ⟨by norm_num,
   (animateScore_correct 1 (by norm_num)).2.2.2.2.1,
   (animateScore_correct 1 (by norm_num)).2.2.2.2.2.1,
   (animateScore_correct 1 (by norm_num)).2.2.2.2.2.2.2.1 1⟩

/-- C10: for every target `S` the count-up terminates after at most
`max 1 ⌈S / 0.5⌉` ticks of the fixed 10ms interval (and stays terminated),
and the locally computed `speed = 2000 / target` (line 114) is never used:
the tick interval is the constant `10` for every target, so neither the
interval nor the total duration depends on `speed`. -/
theorem animateScore_terminates (S : Rat) :
    (scoreRun S (max 1 (Int.toNat ⌈S / (0.5 : Rat)⌉))).running = false ∧
    scoreTicksTotal S = max 1 (Int.toNat ⌈S / (0.5 : Rat)⌉) ∧
    (∀ m, scoreTicksTotal S ≤ m → (scoreRun S m).running = false) ∧
    scoreIntervalMs S = 10 ∧
    (∀ T : Rat, scoreIntervalMs S = scoreIntervalMs T) ∧
    totalDurationMs S = scoreTicksTotal S * 10 := by
  have hdiv : S / (0.5 : Rat) = 2 * S := by
    rw [show (0.5 : Rat) = 1 / 2 by norm_num]
    ring
  have hmax : scoreTicksTotal S = max 1 (Int.toNat ⌈S / (0.5 : Rat)⌉) := by
    rw [hdiv, scoreTicksTotal]
  refine ⟨?_, hmax, ?_, rfl, fun _ => rfl, rfl⟩
  · rw [← hmax, scoreRun_stop]
  · intro m hm
    rw [scoreRun_ge S m hm, scoreRun_stop]

/-- Witness for C10 at the concrete target `S = 3` and tick count `m = 7`. -/
theorem animateScore_terminates_witness :
    scoreTicksTotal 3 ≤ 7 ∧ (scoreRun 3 7).running = false := by
  have h6 : ⌈(2 * 3 : Rat)⌉ = (6 : Int) := by
    rw [Int.ceil_eq_iff]
    constructor <;> norm_num
  have hle : scoreTicksTotal 3 ≤ 7 := by simp [scoreTicksTotal, h6]
  exact ⟨hle, (animateScore_terminates 3).2.2.1 7 hle⟩

/-- C2: for every activation of the analyze trigger (possible only while it
is enabled, since a disabled control emits no click), the trigger is
disabled immediately, the busy label is set, the scan overlay inserted, and
the one-shot timer armed with the fixed 3000ms delay; the trigger stays
disabled under every event until that timer fires; a click while disabled
is a no-op, so analysis can never be activated twice without an intervening
completion; when the timer fires it re-enables the trigger exactly once
(a duplicate firing is a no-op because the one-shot timer was consumed),
removes the scan overlay, displays the result and restores the default
label. -/
theorem analyzeTrigger_serialized (s : UIState) (h : s.analyzeDisabled = false) :
    (step s UIEvent.clickAnalyze).analyzeDisabled = true ∧
    (step s UIEvent.clickAnalyze).analyzeLabel = analyzingLabel ∧
    (step s UIEvent.clickAnalyze).pendingAnalysis = some analysisDelayMs ∧
    analysisDelayMs = 3000 ∧
    (step s UIEvent.clickAnalyze).scanLines = s.scanLines + 1 ∧
    (∀ es : List UIEvent, (∀ e ∈ es, e ≠ UIEvent.analysisTimerFires) →
      (run (step s UIEvent.clickAnalyze) es).analyzeDisabled = true) ∧
    (∀ s' : UIState, s'.analyzeDisabled = true →
      step s' UIEvent.clickAnalyze = s') ∧
    (run s [UIEvent.clickAnalyze, UIEvent.analysisTimerFires]).analyzeDisabled
      = false ∧
    (run s [UIEvent.clickAnalyze, UIEvent.analysisTimerFires]).analyzeLabel
      = defaultAnalyzeLabel ∧
    (run s [UIEvent.clickAnalyze, UIEvent.analysisTimerFires]).resultsVisible
      = true ∧
    (run s [UIEvent.clickAnalyze, UIEvent.analysisTimerFires]).scanLines
      = s.scanLines ∧
    (run s [UIEvent.clickAnalyze, UIEvent.analysisTimerFires]).pendingAnalysis
      = none ∧
    (∀ s' : UIState, s'.pendingAnalysis = none →
      step s' UIEvent.analysisTimerFires = s') := by
  have hclick : step s UIEvent.clickAnalyze =
      { s with analyzeDisabled := true, analyzeLabel := analyzingLabel,
               scanLines := s.scanLines + 1,
               pendingAnalysis := some analysisDelayMs } := by
    simp [step, analyzeBtnOnclick, h]
  refine ⟨by rw [hclick], by rw [hclick], by rw [hclick], rfl, by rw [hclick],
    ?_, ?_, ?_, ?_, ?_, ?_, ?_, ?_⟩
  · intro es hes
    exact run_disabled (by rw [hclick]) hes
  · intro s' hd
    simp [step, analyzeBtnOnclick, hd]
  · rw [run_cons, hclick]
    simp [run, step, analysisTimeout, displayResults]
  · rw [run_cons, hclick]
    simp [run, step, analysisTimeout, displayResults]
  · rw [run_cons, hclick]
    simp [run, step, analysisTimeout, displayResults]
  · rw [run_cons, hclick]
    simp [run, step, analysisTimeout, displayResults]
  · rw [run_cons, hclick]
    simp [run, step, analysisTimeout, displayResults]
  · intro s' hp
    simp [step, analysisTimeout, hp]

/-- Witness for C2 at the initial state, with the fire-free event list
`[rendererReady]`. -/
theorem analyzeTrigger_serialized_witness :
    initState.analyzeDisabled = false ∧
    (step initState UIEvent.clickAnalyze).analyzeDisabled = true ∧
    (∀ e ∈ [UIEvent.rendererReady], e ≠ UIEvent.analysisTimerFires) ∧
    (run (step initState UIEvent.clickAnalyze)
      [UIEvent.rendererReady]).analyzeDisabled = true ∧
    (run initState [UIEvent.clickAnalyze, UIEvent.analysisTimerFires]
      ).analyzeDisabled = false :=
  ⟨rfl, (analyzeTrigger_serialized initState rfl).1,
   by decide,
   (analyzeTrigger_serialized initState rfl).2.2.2.2.2.1
     [UIEvent.rendererReady] (by decide),
   (analyzeTrigger_serialized initState rfl).2.2.2.2.2.2.2.1⟩

set_option maxRecDepth 8192 in
/-- C1: when the analysis flow completes (analyze click followed by the
timer firing, from any state in which the trigger is enabled), the results
surface becomes visible and the presented result is the fixed mock object:
`isAI = true` (synthetic) with the corresponding label/color pair applied,
the language badge interpolated from the language "Telugu", the score
animation targeted at `97.8` and ending at exactly `97.8`, and the
typewriter handed the system-report string, which it reveals in full and
which ends with the full mock explanation string. -/
theorem analysisFlow_mock_result (s : UIState) (h : s.analyzeDisabled = false) :
    (run s [UIEvent.clickAnalyze, UIEvent.analysisTimerFires]).resultsVisible
      = true ∧
    mockResponse.isAI = true ∧
    (run s [UIEvent.clickAnalyze, UIEvent.analysisTimerFires]).classLabel
      = some "AI-GENERATED VOICE" ∧
    (run s [UIEvent.clickAnalyze, UIEvent.analysisTimerFires]).classColor
      = some "#fb7185" ∧
    (run s [UIEvent.clickAnalyze, UIEvent.analysisTimerFires]).badge
      = some "Telugu Detected" ∧
    (run s [UIEvent.clickAnalyze, UIEvent.analysisTimerFires]).scoreAnimTarget
      = some (97.8 : Rat) ∧
    (scoreRun 97.8 (scoreTicksTotal 97.8)).displayed = some 97.8 ∧
    (scoreRun 97.8 (scoreTicksTotal 97.8)).running = false ∧
    (run s [UIEvent.clickAnalyze, UIEvent.analysisTimerFires]).explAnimText
      = some systemReportText ∧
    (typeRun systemReportText.data [] systemReportText.data.length).displayed
      = systemReportText.data ∧
    mockResponse.details.data <:+ systemReportText.data := by
  have hclick : step s UIEvent.clickAnalyze =
      { s with analyzeDisabled := true, analyzeLabel := analyzingLabel,
               scanLines := s.scanLines + 1,
               pendingAnalysis := some analysisDelayMs } := by
    simp [step, analyzeBtnOnclick, h]
  have hrunr : run s [UIEvent.clickAnalyze, UIEvent.analysisTimerFires] =
      run (step s UIEvent.clickAnalyze) [UIEvent.analysisTimerFires] := rfl
  have hL : 1 ≤ systemReportText.data.length := by decide
  refine ⟨?_, rfl, ?_, ?_, ?_, ?_, ?_, ?_, ?_, ?_, ?_⟩
  · rw [hrunr, hclick]
    simp [run, step, analysisTimeout, displayResults]
  · rw [hrunr, hclick]
    simp [run, step, analysisTimeout, displayResults, classificationText,
      mockResponse]
  · rw [hrunr, hclick]
    simp [run, step, analysisTimeout, displayResults, classificationColor,
      mockResponse]
  · rw [hrunr, hclick]
    simp [run, step, analysisTimeout, displayResults, mockResponse]
  · rw [hrunr, hclick]
    simp [run, step, analysisTimeout, displayResults, mockResponse]
  · rw [scoreRun_stop]
  · rw [scoreRun_stop]
  · rw [hrunr, hclick]
    simp [run, step, analysisTimeout, displayResults]
  · rw [(typeRun_formula systemReportText.data [] systemReportText.data.length
      hL)]
    exact List.take_length systemReportText.data
  · exact ⟨"> [SYSTEM_REPORT]: ".data,
      (String.data_append "> [SYSTEM_REPORT]: " mockResponse.details).symm⟩

/-- Witness for C1 at the initial state. -/
theorem analysisFlow_mock_result_witness :
    initState.analyzeDisabled = false ∧
    (run initState [UIEvent.clickAnalyze, UIEvent.analysisTimerFires]
      ).resultsVisible = true ∧
    (run initState [UIEvent.clickAnalyze, UIEvent.analysisTimerFires]
      ).badge = some "Telugu Detected" ∧
    (run initState [UIEvent.clickAnalyze, UIEvent.analysisTimerFires]
      ).classLabel = some "AI-GENERATED VOICE" :=
  ⟨rfl, (analysisFlow_mock_result initState rfl).1,
   (analysisFlow_mock_result initState rfl).2.2.2.2.1,
   (analysisFlow_mock_result initState rfl).2.2.1⟩

/-- C5 counterexample: the claimed invariant "the results surface cannot
become visible unless `handleAudioUpload` has previously run at least once"
is false: from the initial state, clicking analyze and letting the 3000ms
timer fire makes the results surface visible while the upload count is
still zero (the code never guards analysis on an upload). -/
theorem results_without_upload_cex :
    ¬ (∀ es : List UIEvent,
        (run initState es).resultsVisible = true →
          1 ≤ (run initState es).uploads) := by
  intro hall
  have h1 : (run initState noUploadTrace).resultsVisible = true := rfl
  have h2 : (run initState noUploadTrace).uploads = 0 := rfl
  have h3 := hall noUploadTrace h1
  omega

/-- C5 (amended): the invariant is not enforced by the code — there is a
reachable execution (analyze click, then the analysis timer) in which the
results surface becomes visible although `handleAudioUpload` has never
run. -/
theorem results_without_upload_amended :
    ∃ es : List UIEvent,
      (run initState es).resultsVisible = true ∧
      (run initState es).uploads = 0 :=
  ⟨noUploadTrace, rfl, rfl⟩

/-- C8: `handleAudioUpload` (lines 31-50) completes its synchronous steps —
revealing the playback surface, setting the displayed file name, and
scrolling the playback surface into view — before returning, while the
base64 encoding is only pending: the process-wide encoded-audio slot is
untouched when the call returns, the new read is pending, and the reader
completion and the renderer readiness may fire in either order (both
interleavings are executions, both write the slot, and they commute). -/
theorem handleAudioUpload_frame (s : UIState) (f : JSFile) :
    (handleAudioUpload f s).playbackVisible = true ∧
    (handleAudioUpload f s).fileName = some f.name ∧
    (handleAudioUpload f s).scrolls = s.scrolls ++ ["playback-container"] ∧
    (handleAudioUpload f s).audioBase64 = s.audioBase64 ∧
    (handleAudioUpload f s).pendingReads = s.pendingReads ++ [f.dataURL] ∧
    (handleAudioUpload f s).rendererPending = s.rendererPending + 1 ∧
    (run (handleAudioUpload f s)
        [UIEvent.readerLoadEnd s.pendingReads.length,
         UIEvent.rendererReady]).audioBase64 = dataURLPayload f.dataURL ∧
    (run (handleAudioUpload f s)
        [UIEvent.rendererReady,
         UIEvent.readerLoadEnd s.pendingReads.length]).audioBase64 =
      dataURLPayload f.dataURL ∧
    run (handleAudioUpload f s)
        [UIEvent.readerLoadEnd s.pendingReads.length, UIEvent.rendererReady] =
      run (handleAudioUpload f s)
        [UIEvent.rendererReady, UIEvent.readerLoadEnd s.pendingReads.length] := by
  have hj : s.pendingReads.length <
      (handleAudioUpload f s).pendingReads.length := by
    simp [handleAudioUpload]
  refine ⟨rfl, rfl, rfl, rfl, rfl, rfl, ?_, ?_, ?_⟩
  · simp [run, step, handleAudioUpload, readerOnloadend, wavesurferReady,
      getD_concat_length]
  · simp [run, step, handleAudioUpload, readerOnloadend, wavesurferReady,
      getD_concat_length]
  · simp [run, step, handleAudioUpload, readerOnloadend, wavesurferReady,
      getD_concat_length, eraseIdx_concat_length]

/-- C9: when a File Reader completes (lines 41-46), the process-wide
encoded-audio slot is set to `reader.result.split(',')[1]`; for a
well-formed data URL `header ++ "," ++ payload` (neither the base64 payload
nor the `data:<mime>;base64` header contains a comma) this is exactly the
bare payload after the first comma, and never the full data URL. -/
theorem audioBase64_payload (s : UIState) (j : Nat)
    (hj : j < s.pendingReads.length)
    (header payload : List Char) (hh : ',' ∉ header) (hp : ',' ∉ payload) :
    (step s (UIEvent.readerLoadEnd j)).audioBase64 =
      dataURLPayload (s.pendingReads.getD j []) ∧
    dataURLPayload (header ++ ',' :: payload) = some payload ∧
    dataURLPayload (header ++ ',' :: payload) ≠
      some (header ++ ',' :: payload) := by
  refine ⟨?_, ?_, ?_⟩
  · simp [step, readerOnloadend, hj]
  · rw [dataURLPayload, splitChars_append_sep payload hh,
      splitChars_of_no_sep hp]
    rfl
  · rw [dataURLPayload, splitChars_append_sep payload hh,
      splitChars_of_no_sep hp]
    intro hcontra
    have h1 : payload = header ++ ',' :: payload := by
      simpa using hcontra
    have h2 : payload.length = (header ++ ',' :: payload).length := by
      rw [← h1]
    simp [List.length_append] at h2
    omega

/-- Witness for C9: a concrete upload of "sample.wav" whose reader
completes with the data URL "data:audio/wav;base64,AAAA". -/
theorem audioBase64_payload_witness :
    (0 < (handleAudioUpload
        ⟨"sample.wav", "data:audio/wav;base64,AAAA".toList⟩
        initState).pendingReads.length) ∧
    (',' ∉ "data:audio/wav;base64".toList) ∧
    (',' ∉ "AAAA".toList) ∧
    dataURLPayload ("data:audio/wav;base64".toList ++ ',' :: "AAAA".toList) =
      some "AAAA".toList :=
  ⟨by decide, by decide, by decide,
   (audioBase64_payload
      (handleAudioUpload ⟨"sample.wav", "data:audio/wav;base64,AAAA".toList⟩
        initState)
      0 (by decide) "data:audio/wav;base64".toList "AAAA".toList
      (by decide) (by decide)).2.1⟩
